import Mathlib

set_option maxHeartbeats 4000000
set_option maxRecDepth 10000

/-!
Verification of the `EditObjectsManually` CellProfiler module
(`cellprofiler/modules/editobjectsmanually.py`): the label-matrix data
model, the renumbering pass of `run`, the boundary tracer
`make_control_points`, the rasterization path of `close_label`, the edit
operations (`ok_to_split`, `delete_control_point`, `new_object`), the
cancellation semantics of `filter_objects`, and a spec-modelled neighbor
relationship engine (its source module is absent from the corpus).
-/

/-- A label matrix: rows of natural-number labels, 0 = background
(`orig_labels` / `self.labels` in the source). -/
abbrev Mat := List (List Nat)

/-- Largest value occurring in a label matrix (`np.max(labels)`). -/
def maxVal (m : Mat) : Nat := m.flatten.foldr max 0

/-- The sorted distinct non-zero labels of a matrix: the value of
`unique_labels = np.unique(filtered_labels); unique_labels[unique_labels != 0]`
in `EditObjectsManually.run` (lines 203-204). `np.unique` returns the
distinct values in ascending order, which equals an ascending scan of
`0..max` keeping the present non-zero values. -/
def uniqueLabels (m : Mat) : List Nat :=
  (List.range (maxVal m + 1)).filter (fun v => decide (v ≠ 0 ∧ v ∈ m.flatten))

/-- Position of the first occurrence of `v` in a list, `none` if absent. -/
def rank (v : Nat) : List Nat → Option Nat
  | [] => none
  | a :: t => if a = v then some 0 else (rank v t).map (· + 1)

/-- The renumbering map of `run` (lines 207-208):
`mapping = np.zeros(max+1); mapping[unique_labels] = np.arange(1, N+1)`,
so a value `v` maps to its rank in the sorted distinct non-zero labels
plus one, and to 0 when absent from them (in particular 0 maps to 0). -/
def renumberVal (uls : List Nat) (v : Nat) : Nat :=
  ((rank v uls).map (· + 1)).getD 0

/-- `filtered_labels = mapping[filtered_labels]` (line 209). -/
def applyRenumber (m : Mat) : Mat :=
  m.map (List.map (renumberVal (uniqueLabels m)))

/-- The two values of the "Numbering of the edited objects" setting. -/
inductive RenumberChoice
  | renumber
  | retain
deriving DecidableEq

/-- The conditional renumbering pass of `run` (lines 206-209). -/
def renumberPass (choice : RenumberChoice) (filtered : Mat) : Mat :=
  if choice = RenumberChoice.renumber then applyRenumber filtered else filtered

/-- The label-matrix part of `EditObjectsManually.run` (lines 195-209):
with no UI frame the labels are accepted as-is, otherwise the interactive
editing result is used; then the renumbering pass runs. -/
def runLabels (frameNone : Bool) (choice : RenumberChoice)
    (origLabels editedLabels : Mat) : Mat :=
  let filtered := if frameNone then origLabels else editedLabels
  renumberPass choice filtered

theorem rank_isSome_of_mem {v : Nat} {l : List Nat} (h : v ∈ l) :
    (rank v l).isSome := by
  induction l with
  | nil => cases h
  | cons a t ih =>
    by_cases hav : a = v
    · simp [rank, hav]
    · rcases List.mem_cons.mp h with h1 | h2
      · exact absurd h1.symm hav
      · simpa [rank, hav] using ih h2

theorem rank_eq_none_of_not_mem {v : Nat} {l : List Nat} (h : v ∉ l) :
    rank v l = none := by
  induction l with
  | nil => rfl
  | cons a t ih =>
    have hav : a ≠ v := fun he => h (he ▸ List.mem_cons_self a t)
    have hvt : v ∉ t := fun hm => h (List.mem_cons_of_mem a hm)
    simp [rank, hav, ih hvt]

theorem rank_lt_length {v : Nat} {l : List Nat} {k : Nat}
    (h : rank v l = some k) : k < l.length := by
  induction l generalizing k with
  | nil => simp [rank] at h
  | cons a t ih =>
    simp only [rank] at h
    split at h
    · have hk : k = 0 := by
        have := Option.some_inj.mp h
        omega
      simp [hk]
    · rcases Option.map_eq_some'.mp h with ⟨k', hk', hkk⟩
      have := ih hk'
      simp only [List.length_cons]
      omega

theorem rank_get? {v : Nat} {l : List Nat} {k : Nat}
    (h : rank v l = some k) : l.get? k = some v := by
  induction l generalizing k with
  | nil => simp [rank] at h
  | cons a t ih =>
    simp only [rank] at h
    split at h
    · have hk : k = 0 := by
        have := Option.some_inj.mp h
        omega
      subst hk
      simpa using (by assumption : a = v)
    · rcases Option.map_eq_some'.mp h with ⟨k', hk', hkk⟩
      have := ih hk'
      subst hkk
      simpa using this

theorem rank_inj {a b : Nat} {l : List Nat} {k : Nat}
    (ha : rank a l = some k) (hb : rank b l = some k) : a = b := by
  have h1 := rank_get? ha
  have h2 := rank_get? hb
  rw [h1] at h2
  exact Option.some_inj.mp h2

theorem rank_get_of_pairwise {l : List Nat} (hp : l.Pairwise (· < ·)) :
    ∀ k (hk : k < l.length), rank (l.get ⟨k, hk⟩) l = some k := by
  induction l with
  | nil => intro k hk; simp at hk
  | cons a t ih =>
    intro k hk
    match k with
    | 0 => simp [rank]
    | Nat.succ k' =>
      have hk' : k' < t.length := by simpa using hk
      have hmem : t.get ⟨k', hk'⟩ ∈ t := t.get_mem _ _
      have hlt : a < t.get ⟨k', hk'⟩ := (List.pairwise_cons.mp hp).1 _ hmem
      have hne : a ≠ t.get ⟨k', hk'⟩ := Nat.ne_of_lt hlt
      have hr := ih (List.pairwise_cons.mp hp).2 k' hk'
      simp only [List.get_eq_getElem] at hne hr ⊢
      simp only [List.getElem_cons_succ, rank, if_neg hne, hr, Option.map_some']

theorem rank_mono {l : List Nat} (hp : l.Pairwise (· < ·)) {a b ka kb : Nat}
    (hab : a < b) (ha : rank a l = some ka) (hb : rank b l = some kb) :
    ka < kb := by
  induction l generalizing ka kb with
  | nil => simp [rank] at ha
  | cons x t ih =>
    have hxlt := (List.pairwise_cons.mp hp).1
    by_cases hxa : x = a
    · -- rank a = 0; b must be in the tail so rank b > 0
      have hka : ka = 0 := by
        have h0 : (0 : Nat) = ka := by simpa [rank, hxa] using ha
        omega
      have hxb : x ≠ b := by omega
      simp [rank, hxb] at hb
      rcases hb with ⟨kb', _, hkb⟩
      omega
    · by_cases hxb : x = b
      · -- impossible: a is in the tail so x < a, but a < b = x
        simp [rank, hxa] at ha
        rcases ha with ⟨ka', hka', _⟩
        have hmem : a ∈ t := by
          have := rank_get? hka'
          exact List.get?_mem this
        have := hxlt a hmem
        omega
      · simp [rank, hxa] at ha
        simp [rank, hxb] at hb
        rcases ha with ⟨ka', hka', hka⟩
        rcases hb with ⟨kb', hkb', hkb⟩
        have := ih (List.pairwise_cons.mp hp).2 hka' hkb'
        omega

theorem le_foldr_max {v : Nat} {l : List Nat} (h : v ∈ l) :
    v ≤ l.foldr max 0 := by
  induction l with
  | nil => cases h
  | cons a t ih =>
    rcases List.mem_cons.mp h with h1 | h2
    · simp [h1, Nat.le_max_left]
    · exact le_trans (ih h2) (by simp [Nat.le_max_right])

theorem mem_uniqueLabels {m : Mat} {v : Nat} :
    v ∈ uniqueLabels m ↔ v ≠ 0 ∧ v ∈ m.flatten := by
  constructor
  · intro h
    have := List.mem_filter.mp h
    exact of_decide_eq_true this.2
  · intro ⟨h0, hm⟩
    refine List.mem_filter.mpr ⟨?_, decide_eq_true ⟨h0, hm⟩⟩
    have : v ≤ maxVal m := le_foldr_max hm
    exact List.mem_range.mpr (by omega)

theorem pairwise_uniqueLabels (m : Mat) :
    (uniqueLabels m).Pairwise (· < ·) :=
  List.Pairwise.sublist (List.filter_sublist _) (List.pairwise_lt_range _)

theorem flatten_applyRenumber (m : Mat) :
    (applyRenumber m).flatten =
      m.flatten.map (renumberVal (uniqueLabels m)) := by
  simp [applyRenumber, List.map_flatten]

theorem renumberVal_eq_zero_iff {m : Mat} {x : Nat} (hx : x ∈ m.flatten) :
    renumberVal (uniqueLabels m) x = 0 ↔ x = 0 := by
  constructor
  · intro h
    by_contra hx0
    have hmem : x ∈ uniqueLabels m := mem_uniqueLabels.mpr ⟨hx0, hx⟩
    have := rank_isSome_of_mem hmem
    rcases Option.isSome_iff_exists.mp this with ⟨k, hk⟩
    simp [renumberVal, hk] at h
  · intro h
    subst h
    have : (0 : Nat) ∉ uniqueLabels m := by
      intro hc
      exact (mem_uniqueLabels.mp hc).1 rfl
    simp [renumberVal, rank_eq_none_of_not_mem this]

theorem renumberVal_inj_on {m : Mat} {a b : Nat}
    (ha : a ∈ m.flatten) (hb : b ∈ m.flatten)
    (h : renumberVal (uniqueLabels m) a = renumberVal (uniqueLabels m) b) :
    a = b := by
  by_cases ha0 : a = 0
  · subst ha0
    have h0 : renumberVal (uniqueLabels m) 0 = 0 :=
      (renumberVal_eq_zero_iff ha).mpr rfl
    rw [h0] at h
    exact ((renumberVal_eq_zero_iff hb).mp h.symm).symm
  · by_cases hb0 : b = 0
    · subst hb0
      have h0 : renumberVal (uniqueLabels m) 0 = 0 :=
        (renumberVal_eq_zero_iff hb).mpr rfl
      rw [h0] at h
      exact absurd ((renumberVal_eq_zero_iff ha).mp h) ha0
    · have hma : a ∈ uniqueLabels m := mem_uniqueLabels.mpr ⟨ha0, ha⟩
      have hmb : b ∈ uniqueLabels m := mem_uniqueLabels.mpr ⟨hb0, hb⟩
      rcases Option.isSome_iff_exists.mp (rank_isSome_of_mem hma) with ⟨ka, hka⟩
      rcases Option.isSome_iff_exists.mp (rank_isSome_of_mem hmb) with ⟨kb, hkb⟩
      simp [renumberVal, hka, hkb] at h
      exact rank_inj hka (by rw [hkb, h])

theorem count_renumbered {m : Mat} {v : Nat} (hv : v ∈ uniqueLabels m) :
    (m.flatten.map (renumberVal (uniqueLabels m))).count
        (renumberVal (uniqueLabels m) v)
      = m.flatten.count v := by
  have hvf : v ∈ m.flatten := (mem_uniqueLabels.mp hv).2
  rw [List.count_eq_countP, List.count_eq_countP, List.countP_map]
  refine List.countP_congr ?_
  intro x hx
  simp only [Function.comp_apply, beq_iff_eq]
  constructor
  · intro h
    exact renumberVal_inj_on hx hvf h
  · intro h
    rw [h]

theorem countP_ne_zero_renumbered (m : Mat) :
    (m.flatten.map (renumberVal (uniqueLabels m))).countP
        (fun x => decide (x ≠ 0))
      = m.flatten.countP (fun x => decide (x ≠ 0)) := by
  rw [List.countP_map]
  refine List.countP_congr ?_
  intro x hx
  simp only [Function.comp_apply, decide_eq_true_eq]
  constructor
  · intro h hx0
    subst hx0
    exact h ((renumberVal_eq_zero_iff hx).mpr rfl)
  · intro h hf
    exact h ((renumberVal_eq_zero_iff hx).mp hf)

/-- Claim C2: with the Renumber choice selected, the renumbering pass of
`run` (lines 203-209) maps the distinct positive labels of the filtered
matrix order-preservingly onto exactly `1..N` (`N` the number of distinct
non-zero labels), maps each pixel positionally (so background pixels and
only they stay 0), preserves each object's pixel count, and preserves the
total non-zero pixel count. -/
theorem claim_C2_renumber_pass (m : Mat) (choice : RenumberChoice)
    (hc : choice = RenumberChoice.renumber) :
    (∀ v, v ∈ uniqueLabels (renumberPass choice m) ↔
      1 ≤ v ∧ v ≤ (uniqueLabels m).length) ∧
    (∀ a b, a ∈ uniqueLabels m → b ∈ uniqueLabels m → a < b →
      renumberVal (uniqueLabels m) a < renumberVal (uniqueLabels m) b) ∧
    ((renumberPass choice m).flatten =
      m.flatten.map (renumberVal (uniqueLabels m))) ∧
    (∀ x ∈ m.flatten, (renumberVal (uniqueLabels m) x = 0 ↔ x = 0)) ∧
    (∀ v ∈ uniqueLabels m,
      (renumberPass choice m).flatten.count (renumberVal (uniqueLabels m) v)
        = m.flatten.count v) ∧
    ((renumberPass choice m).flatten.countP (fun x => decide (x ≠ 0))
        = m.flatten.countP (fun x => decide (x ≠ 0))) := by
  subst hc
  have hpass : renumberPass RenumberChoice.renumber m = applyRenumber m := by
    simp [renumberPass]
  rw [hpass]
  refine ⟨?_, ?_, flatten_applyRenumber m, ?_, ?_, ?_⟩
  · intro v
    rw [mem_uniqueLabels, flatten_applyRenumber]
    constructor
    · rintro ⟨hv0, hvm⟩
      rcases List.mem_map.mp hvm with ⟨x, hx, hfx⟩
      rcases hr : rank x (uniqueLabels m) with _ | k
      · rw [renumberVal, hr] at hfx
        simp at hfx
        exact absurd hfx.symm hv0
      · have hk := rank_lt_length hr
        rw [renumberVal, hr] at hfx
        simp at hfx
        omega
    · rintro ⟨h1, h2⟩
      have hk : v - 1 < (uniqueLabels m).length := by omega
      set u := (uniqueLabels m).get ⟨v - 1, hk⟩ with hu
      have hrank : rank u (uniqueLabels m) = some (v - 1) :=
        rank_get_of_pairwise (pairwise_uniqueLabels m) (v - 1) hk
      have humem : u ∈ uniqueLabels m := (uniqueLabels m).get_mem _ _
      have hval : renumberVal (uniqueLabels m) u = v := by
        rw [renumberVal, hrank]
        simp
        omega
      refine ⟨by omega, List.mem_map.mpr ⟨u, (mem_uniqueLabels.mp humem).2, hval⟩⟩
  · intro a b ha hb hab
    rcases Option.isSome_iff_exists.mp (rank_isSome_of_mem ha) with ⟨ka, hka⟩
    rcases Option.isSome_iff_exists.mp (rank_isSome_of_mem hb) with ⟨kb, hkb⟩
    have := rank_mono (pairwise_uniqueLabels m) hab hka hkb
    rw [renumberVal, renumberVal, hka, hkb]
    simpa using this
  · intro x hx
    exact renumberVal_eq_zero_iff hx
  · intro v hv
    rw [flatten_applyRenumber]
    exact count_renumbered hv
  · rw [flatten_applyRenumber]
    exact countP_ne_zero_renumbered m

/-- Witness for `claim_C2_renumber_pass` at the concrete matrix
`[[0, 5], [3, 3]]`. -/
theorem claim_C2_renumber_pass_witness :
    (∀ v, v ∈ uniqueLabels (renumberPass RenumberChoice.renumber [[0, 5], [3, 3]]) ↔
      1 ≤ v ∧ v ≤ (uniqueLabels [[0, 5], [3, 3]]).length) ∧
    (∀ a b, a ∈ uniqueLabels [[0, 5], [3, 3]] → b ∈ uniqueLabels [[0, 5], [3, 3]] → a < b →
      renumberVal (uniqueLabels [[0, 5], [3, 3]]) a
        < renumberVal (uniqueLabels [[0, 5], [3, 3]]) b) ∧
    ((renumberPass RenumberChoice.renumber [[0, 5], [3, 3]]).flatten =
      ([[0, 5], [3, 3]] : Mat).flatten.map (renumberVal (uniqueLabels [[0, 5], [3, 3]]))) ∧
    (∀ x ∈ ([[0, 5], [3, 3]] : Mat).flatten,
      (renumberVal (uniqueLabels [[0, 5], [3, 3]]) x = 0 ↔ x = 0)) ∧
    (∀ v ∈ uniqueLabels [[0, 5], [3, 3]],
      (renumberPass RenumberChoice.renumber [[0, 5], [3, 3]]).flatten.count
          (renumberVal (uniqueLabels [[0, 5], [3, 3]]) v)
        = ([[0, 5], [3, 3]] : Mat).flatten.count v) ∧
    ((renumberPass RenumberChoice.renumber [[0, 5], [3, 3]]).flatten.countP
          (fun x => decide (x ≠ 0))
        = ([[0, 5], [3, 3]] : Mat).flatten.countP (fun x => decide (x ≠ 0))) :=
  claim_C2_renumber_pass [[0, 5], [3, 3]] RenumberChoice.renumber rfl

/-- Claim C10: in a headless run (`workspace.frame is None`) `run` skips
interactive editing: under Retain the output equals the input label
matrix, under Renumber it equals the input composed with the
order-preserving relabelling, and the relabelling never merges or splits
objects (pixel membership is preserved: two pixel values collide after
the map only if they were equal before). -/
theorem claim_C10_headless_run (orig editedLabels : Mat) :
    (runLabels true RenumberChoice.retain orig editedLabels = orig) ∧
    (runLabels true RenumberChoice.renumber orig editedLabels
        = applyRenumber orig) ∧
    (∀ a b, a ∈ orig.flatten → b ∈ orig.flatten →
      (renumberVal (uniqueLabels orig) a = renumberVal (uniqueLabels orig) b
        ↔ a = b)) := by
  refine ⟨by simp [runLabels, renumberPass], by simp [runLabels, renumberPass], ?_⟩
  intro a b ha hb
  exact ⟨renumberVal_inj_on ha hb, fun h => by rw [h]⟩

/-- Witness for `claim_C10_headless_run` at the concrete matrix
`[[7, 0], [7, 2]]`, instantiating the pixel-membership clause at the
values 7 and 2. -/
theorem claim_C10_headless_run_witness :
    (runLabels true RenumberChoice.retain [[7, 0], [7, 2]] [[1, 1], [1, 1]]
        = [[7, 0], [7, 2]]) ∧
    (runLabels true RenumberChoice.renumber [[7, 0], [7, 2]] [[1, 1], [1, 1]]
        = applyRenumber [[7, 0], [7, 2]]) ∧
    (renumberVal (uniqueLabels [[7, 0], [7, 2]]) 7
        = renumberVal (uniqueLabels [[7, 0], [7, 2]]) 2 ↔ 7 = 2) :=
  ⟨(claim_C10_headless_run [[7, 0], [7, 2]] [[1, 1], [1, 1]]).1,
   (claim_C10_headless_run [[7, 0], [7, 2]] [[1, 1], [1, 1]]).2.1,
   (claim_C10_headless_run [[7, 0], [7, 2]] [[1, 1], [1, 1]]).2.2 7 2
     (by decide) (by decide)⟩

/-! Boundary tracer (`FilterObjectsDialog.make_control_points`, lines
1114-1234) and the rasterization path of `close_label` (lines 1236-1268). -/

/-- A grid point as (row, column); chain coordinates may leave the grid. -/
abbrev Pt := Int × Int

/-- A boolean pixel grid. -/
abbrev BMat := List (List Bool)

/-- Value lookup in a label matrix. -/
def getLab (m : Mat) (r c : Nat) : Option Nat :=
  (m.get? r).bind (·.get? c)

/-- Number of columns of a matrix (all rows are assumed equal length,
as for a numpy array). -/
def matW (m : Mat) : Nat := (m.head?.getD []).length

/-- Binary masks and component footprints are packed into a natural
number, bit `r * cols + c` holding cell `(r, c)`; this keeps kernel
evaluation on the fast arithmetic path. -/
def testCell (cols : Nat) (bits : Nat) (r c : Nat) : Bool :=
  decide ((bits >>> (r * cols + c)) % 2 = 1)

/-- Bitboard lookup at signed coordinates, `false` outside the board. -/
def bbGet (rows cols : Nat) (bits : Nat) (r c : Int) : Bool :=
  if 0 ≤ r ∧ r < (rows : Int) ∧ 0 ≤ c ∧ c < (cols : Int) then
    testCell cols bits r.toNat c.toNat
  else false

/-- The zero-padded object mask of `make_control_points` (lines
1175-1179): a `(rows+2) x (cols+2)` board holding `labels == object_number`
shifted by one, inverted for the hole pass (`polarity` false). -/
def padMaskBits (m : Mat) (obj : Nat) (polarity : Bool) : Nat :=
  let cols := matW m + 2
  (List.range (m.length + 2)).foldl
    (fun acc r =>
      (List.range cols).foldl
        (fun acc2 c =>
          let inner := 1 ≤ r ∧ 1 ≤ c ∧ getLab m (r - 1) (c - 1) = some obj
          if if polarity then inner else ¬inner then
            acc2 ||| (1 <<< (r * cols + c))
          else acc2)
        acc)
    0

/-- Bits of the cells with column index at least 1 (may move left). -/
def colMaskNotFirst (rows cols : Nat) : Nat :=
  (List.range rows).foldl
    (fun acc r => acc ||| (((1 <<< (cols - 1)) - 1) <<< (r * cols + 1))) 0

/-- Bits of the cells with column index at most `cols - 2`
(may move right). -/
def colMaskNotLast (rows cols : Nat) : Nat :=
  (List.range rows).foldl
    (fun acc r => acc ||| (((1 <<< (cols - 1)) - 1) <<< (r * cols))) 0

/-- One dilation of a cell set by the structuring element of
`scipy.ndimage.label` (lines 1167-1171): the full 3x3 element for the
8-connected object pass, the cross for the 4-connected hole pass. `nl`
and `nr` must be the column masks for the same board shape. -/
def spreadB (cols : Nat) (nl nr : Nat) (conn8 : Bool) (x : Nat) : Nat :=
  let core := x ||| (x >>> cols) ||| (x <<< cols) |||
    ((x &&& nl) >>> 1) ||| ((x &&& nr) <<< 1)
  if conn8 then
    core ||| ((x &&& nl) >>> (cols + 1)) ||| ((x &&& nr) >>> (cols - 1)) |||
      ((x &&& nl) <<< (cols - 1)) ||| ((x &&& nr) <<< (cols + 1))
  else core

/-- Grow a seed to its connected component inside `mask` (fuel-bounded
fixpoint; a board of `n` cells stabilises within `n` dilations). -/
def floodComp (cols : Nat) (nl nr : Nat) (conn8 : Bool) (mask : Nat) :
    Nat → Nat → Nat
  | 0, y => y
  | fuel + 1, y =>
    let y2 := (spreadB cols nl nr conn8 y) &&& mask
    if y2 = y then y else floodComp cols nl nr conn8 mask fuel y2

/-- The lowest set bit of a positive number, as a power of two. -/
def lowBit (n : Nat) : Nat := n &&& (n ^^^ (n - 1))

/-- Connected-component decomposition (`scipy.ndimage.label`): peel off
the component of the lowest remaining bit until the mask is exhausted.
The bit order is the raster order, so components are produced in the
order scipy numbers them (first pixel encountered in a raster scan). -/
def componentsB (cols : Nat) (nl nr : Nat) (conn8 : Bool) (cells : Nat) :
    Nat → Nat → List Nat
  | 0, _ => []
  | fuel + 1, rem =>
    if rem = 0 then []
    else
      let comp := floodComp cols nl nr conn8 rem cells (lowBit rem)
      comp :: componentsB cols nl nr conn8 cells fuel (rem ^^^ comp)

/-- Raster-order pixel list of one component
(`i, j = i[mask], j[mask]` at lines 1191-1192, padded coordinates). -/
def compPixelsB (rows cols : Nat) (bits : Nat) : List Pt :=
  ((List.range rows).map fun r =>
    (List.range cols).filterMap fun c =>
      if testCell cols bits r c then some ((r : Int), (c : Int)) else none).flatten

/-- The traversal table of lines 1150-1159: for each incoming direction,
the (row offset, column offset, new direction) triples in scan order. -/
def traversalBase : List (Int × Int × Nat) :=
  [(1, 0, 5), (1, -1, 6), (0, -1, 7), (-1, -1, 0),
   (-1, 0, 1), (-1, 1, 2), (0, 1, 3), (1, 1, 4)]

/-- `traversal_order[direction, hits, :][0, :]` (lines 1208-1210): scan
the 8 neighbors in rotated order and take the first foreground one. -/
def findHit (rows cols : Nat) (cmask : Nat) (r c : Int) (dir : Nat) :
    Option (Int × Int × Nat) :=
  (((List.range 8).map fun k =>
      (traversalBase.get? ((dir + k) % 8)).getD (0, 0, 0)).find?
    (fun t => bbGet rows cols cmask (r + t.1) (c + t.2.1))).map
    fun t => (r + t.1, c + t.2.1, t.2.2)

/-- The boundary walk of lines 1206-1222 before winding
reversal/decimation: append the current pixel (shifted back by the
padding offset), move to the first foreground neighbor in scan order,
stop upon returning to the start pixel. Fuel-bounded; `none` models a
walk that cannot step or does not close within the fuel. -/
def walkAux (rows cols : Nat) (cmask : Nat) (si sj : Int) :
    Nat → Int → Int → Nat → Option (List Pt)
  | 0, _, _, _ => none
  | fuel + 1, r, c, dir =>
    match findHit rows cols cmask r c dir with
    | none => none
    | some (nr, nc, nd) =>
      if nr = si ∧ nc = sj then some [(r - 1, c - 1)]
      else (walkAux rows cols cmask si sj fuel nr nc nd).map
        (fun rest => (r - 1, c - 1) :: rest)

/-- `np.argmin(i*i+j*j)` over the component pixels (line 1195): the
first pixel minimising the squared distance to the padded origin. -/
def argminD2 : List Pt → Option Pt
  | [] => none
  | p :: t => some (t.foldl
      (fun q p2 =>
        if p2.1 * p2.1 + p2.2 * p2.2 < q.1 * q.1 + q.2 * q.2 then p2 else q) p)

/-- `chain[::k]` for a Python list: keep indices divisible by `k`. -/
def everyNth (l : List Pt) (k : Nat) : List Pt :=
  (l.enum.filter (fun p => p.1 % k = 0)).map (·.2)

/-- The decimation stride of line 1219: `min(10, int((len+19)/20))`. -/
def codeStride (n : Nat) : Nat := min 10 ((n + 19) / 20)

/-- Lines 1218-1221: chains longer than 40 points are decimated by the
code stride; the closing point (the start pixel) is appended afterwards
in both cases. -/
def decimate (chain : List Pt) (closing : Pt) : List Pt :=
  if chain.length > 40 then everyNth chain (codeStride chain.length) ++ [closing]
  else chain ++ [closing]

/-- Trace one component (lines 1190-1222): start at the `argmin(i*i+j*j)`
pixel with initial direction 2, walk the boundary, reverse the winding
for holes, decimate, close. -/
def traceComponent (rows cols : Nat) (cmask : Nat) (pix : List Pt)
    (hole : Bool) (fuel : Nat) : Option (List Pt) :=
  match argminD2 pix with
  | none => none
  | some s =>
    match walkAux rows cols cmask s.1 s.2 fuel s.1 s.2 2 with
    | none => none
    | some raw =>
      let ch := if hole then raw.reverse else raw
      some (decimate ch (s.1 - 1, s.2 - 1))

/-- A traced chain with the artist metadata of lines 1230-1233. -/
structure TChain where
  points : List Pt
  label : Nat
  outside : Bool
deriving DecidableEq, Repr

/-- One polarity pass of `make_control_points` (lines 1167-1233): label
the (possibly inverted) padded mask, drop the border component in the
hole pass (lines 1186-1189), skip components of fewer than 2 pixels
(lines 1193-1194), trace the rest in component order. `none` when some
walk fails (the source would raise there). -/
def tracePass (m : Mat) (obj : Nat) (polarity : Bool) :
    Option (List (List Pt)) :=
  let rows := m.length + 2
  let cols := matW m + 2
  let mask := padMaskBits m obj polarity
  let nl := colMaskNotFirst rows cols
  let nr := colMaskNotLast rows cols
  let comps := componentsB cols nl nr polarity (rows * cols) (rows * cols) mask
  -- the hole pass drops the component holding padded cell (0, 0), i.e.
  -- bit 0 (`border_object = labels[0,0]`, lines 1186-1189)
  let comps2 := if polarity then comps
    else comps.filter (fun cbits => decide (cbits % 2 = 0))
  let fuel := 4 * rows * cols + 8
  comps2.foldr
    (fun cbits acc =>
      match acc with
      | none => none
      | some rest =>
        let pix := compPixelsB rows cols cbits
        if pix.length < 2 then some rest
        else
          match traceComponent rows cols cbits pix (!polarity) fuel with
          | none => none
          | some ch => some (ch :: rest))
    (some [])

/-- `make_control_points` for one object id: the outside chains
(8-connected components of the object mask) followed by the hole chains
(4-connected components of the inverted mask, border component dropped),
with their artist metadata. -/
def makeControlPoints (m : Mat) (obj : Nat) : Option (List TChain) :=
  match tracePass m obj true, tracePass m obj false with
  | some outs, some holes =>
      some (outs.map (fun ch => ⟨ch, obj, true⟩)
        ++ holes.map (fun ch => ⟨ch, obj, false⟩))
  | _, _ => none

/-- Does the pixel center `p` lie on the closed segment from `a` to `b`?
Exact integer test: zero cross product plus bounding box. -/
def onSeg (p a b : Pt) : Bool :=
  decide ((b.1 - a.1) * (p.2 - a.2) = (b.2 - a.2) * (p.1 - a.1)) &&
  decide (min a.1 b.1 ≤ p.1) && decide (p.1 ≤ max a.1 b.1) &&
  decide (min a.2 b.2 ≤ p.2) && decide (p.2 ≤ max a.2 b.2)

/-- Does the segment from `a` to `b` cross the horizontal ray from `p`
towards larger column values? Half-open row rule, exact integer
arithmetic (the crossing column exceeds `p`'s column iff
`((a.2 - p.2) * di + (p.1 - a.1) * (b.2 - a.2)) * di > 0` with
`di = b.1 - a.1`). -/
def crossesRight (p a b : Pt) : Bool :=
  let di := b.1 - a.1
  (decide (a.1 ≤ p.1 ∧ p.1 < b.1) || decide (b.1 ≤ p.1 ∧ p.1 < a.1)) &&
  decide (((a.2 - p.2) * di + (p.1 - a.1) * (b.2 - a.2)) * di > 0)

/-- The consecutive closed-polyline segments of a chain
(`i[:-1], j[:-1]` to `i[1:], j[1:]` in `close_label`, lines 1254-1256). -/
def chainEdges (ch : List Pt) : List (Pt × Pt) := ch.zip ch.tail

/-- Modelled from the spec: `polygon_lines_to_mask` (module
`cellprofiler.cpmath.cpmorphology`, not present under src/). Section 4.2:
"rasterize the closed polyline into a boundary-fill mask (consistent
point-in-polygon rule, e.g. even-odd via scanline or edge-crossing)" — a
pixel belongs to the mask iff its center lies on a polyline segment or
strictly inside by even-odd crossing counting. -/
def fillChain (rows cols : Nat) (ch : List Pt) : BMat :=
  let es := chainEdges ch
  (List.range rows).map fun r => (List.range cols).map fun c =>
    let p : Pt := ((r : Int), (c : Int))
    es.any (fun e => onSeg p e.1 e.2) ||
    decide ((es.countP (fun e => crossesRight p e.1 e.2)) % 2 = 1)

/-- Pointwise exclusive-or of equally shaped boolean grids
(`mask[m1] = ~mask[m1]` in `close_label`, line 1257). -/
def xorMask (a b : BMat) : BMat :=
  a.zipWith (fun ra rb => ra.zipWith xor rb) b

/-- The all-false mask `np.zeros(shape, bool)` of line 1251. -/
def falseMat (rows cols : Nat) : BMat :=
  List.replicate rows (List.replicate cols false)

/-- The polygon-to-mask accumulation of `close_label` (lines 1251-1257):
each chain's fill is combined into the running mask by exclusive-or. -/
def rasterize (rows cols : Nat) (chains : List (List Pt)) : BMat :=
  chains.foldl (fun acc ch => xorMask acc (fillChain rows cols ch))
    (falseMat rows cols)

/-- The boolean footprint of one object id in a label matrix. -/
def objMask (m : Mat) (obj : Nat) : BMat :=
  m.map (List.map (fun x => decide (x = obj)))

/-- Trace an object's chains with `make_control_points`, then rasterize
them back through the `close_label` path. -/
def roundTrip (m : Mat) (obj : Nat) : Option BMat :=
  (makeControlPoints m obj).map fun chs =>
    rasterize m.length (matW m) (chs.map (·.points))

/-- A label matrix holding a single solid `h x w` rectangle of object 1
with top-left corner `(r0, c0)` inside a `rows x cols` grid. -/
def rectM (rows cols r0 c0 h w : Nat) : Mat :=
  (List.range rows).map fun r => (List.range cols).map fun c =>
    if r0 ≤ r ∧ r < r0 + h ∧ c0 ≤ c ∧ c < c0 + w then 1 else 0

/-- A solid 3 x 20 rectangle: simply connected, no holes, no
single-pixel-wide necks, and its boundary chain has 42 points, which
triggers decimation. -/
def longRect : Mat := rectM 3 20 0 0 3 20

/-- Claim C1 fails as stated: the solid 3 x 20 rectangle is simply
connected (its trace yields exactly one chain, an outside one, so no
holes), yet tracing with `make_control_points` and rasterizing the
untouched chains back through the `close_label` path does not reproduce
the mask — the 42-point boundary chain is decimated (stride 3) and the
decimated polygon cuts corners. -/
theorem claim_C1_counterexample :
    ((makeControlPoints longRect 1).map
      (fun l => (l.length, l.countP (fun t => !t.outside)))) = some (1, 0) ∧
    roundTrip longRect 1 ≠ some (objMask longRect 1) :=
  ⟨by decide, by decide⟩

/-- Claim C1 amended: the round trip is exact only when no chain is
decimated (at most 40 points). Verified exhaustively for every solid
axis-aligned rectangle with height and width between 2 and 4 placed
anywhere in a 4 x 4 grid — simply connected masks whose chains (at most
12 points) are untouched by decimation. -/
theorem claim_C1_amended (r0 c0 hgt wid : Fin 3)
    (hr : r0.val + hgt.val + 2 ≤ 4) (hc : c0.val + wid.val + 2 ≤ 4) :
    roundTrip (rectM 4 4 r0.val c0.val (hgt.val + 2) (wid.val + 2)) 1
      = some (objMask (rectM 4 4 r0.val c0.val (hgt.val + 2) (wid.val + 2)) 1) := by
  revert r0 c0 hgt wid
  decide

/-- Witness for `claim_C1_amended`: the 2 x 2 rectangle at the origin. -/
theorem claim_C1_amended_witness :
    roundTrip (rectM 4 4 0 0 2 2) 1 = some (objMask (rectM 4 4 0 0 2 2) 1) :=
  claim_C1_amended 0 0 0 0 (by decide) (by decide)

/-- The topmost-then-leftmost pixel: the lexicographic minimum of
(row, column), as the specification describes the walk's start. -/
def lexMinPt : List Pt → Option Pt
  | [] => none
  | p :: t => some (t.foldl
      (fun q r => if r.1 < q.1 ∨ (r.1 = q.1 ∧ r.2 < q.2) then r else q) p)

/-- Raster-order pixel list of one object id in a label matrix
(unpadded coordinates). -/
def objPixels (m : Mat) (obj : Nat) : List Pt :=
  ((List.range m.length).map fun r =>
    (List.range (matW m)).filterMap fun c =>
      if getLab m r c = some obj then some ((r : Int), (c : Int)) else none).flatten

/-- An anti-diagonal line of five pixels: a single 8-connected component
whose topmost-then-leftmost pixel (0, 4) is far from the origin, while
the pixel (2, 2) minimises `i*i + j*j`. -/
def diagM : Mat :=
  [[0, 0, 0, 0, 1],
   [0, 0, 0, 1, 0],
   [0, 0, 1, 0, 0],
   [0, 1, 0, 0, 0],
   [1, 0, 0, 0, 0]]

/-- Claim C4 fails as stated: on the anti-diagonal component the traced
chain starts at (2, 2), the `argmin(i*i+j*j)` pixel, not at the
lexicographic minimum (0, 4) of (row, column). -/
theorem claim_C4_counterexample :
    ((makeControlPoints diagM 1).map (fun l => l.map (fun t => t.points.head?)))
      = some [some ((2 : Int), (2 : Int))] ∧
    lexMinPt (objPixels diagM 1) = some ((0 : Int), (4 : Int)) ∧
    (((2 : Int), (2 : Int)) : Pt) ≠ ((0 : Int), (4 : Int)) :=
  ⟨by decide, by decide, by decide⟩

theorem walkAux_head {rows cols cmask : Nat} {si sj : Int} {fuel : Nat}
    {r c : Int} {dir : Nat} {l : List Pt}
    (h : walkAux rows cols cmask si sj fuel r c dir = some l) :
    l.head? = some (r - 1, c - 1) := by
  cases fuel with
  | zero => simp [walkAux] at h
  | succ fuel =>
    simp only [walkAux] at h
    cases hf : findHit rows cols cmask r c dir with
    | none => rw [hf] at h; simp at h
    | some t =>
      rw [hf] at h
      obtain ⟨nr, nc, nd⟩ := t
      simp only at h
      split at h
      · rw [← Option.some_inj.mp h]
        rfl
      · rcases Option.map_eq_some'.mp h with ⟨rest, _, hcons⟩
        rw [← hcons]
        rfl

theorem head?_everyNth {l : List Pt} {k : Nat} (h : l ≠ []) :
    (everyNth l k).head? = l.head? := by
  cases l with
  | nil => exact absurd rfl h
  | cons a t => simp [everyNth, List.enum_cons, Nat.zero_mod]

theorem decimate_head {ch : List Pt} {closing : Pt} (h : ch ≠ []) :
    (decimate ch closing).head? = ch.head? := by
  have hh : ∃ a, ch.head? = some a := by
    cases ch with
    | nil => exact absurd rfl h
    | cons a t => exact ⟨a, rfl⟩
  rcases hh with ⟨a, ha⟩
  unfold decimate
  split
  · have h1 : (everyNth ch (codeStride ch.length)).head? = some a := by
      rw [head?_everyNth h, ha]
    cases he : everyNth ch (codeStride ch.length) with
    | nil => rw [he] at h1; simp at h1
    | cons b t =>
      rw [he] at h1
      simp at h1
      simp [h1, ha]
  · cases ch with
    | nil => exact absurd rfl h
    | cons b t => simp at ha; simp [ha]

/-- Claim C4 amended: the walk of `make_control_points` starts at the
pixel minimising `i*i + j*j` over the component's padded coordinates
(first such pixel in raster order), and for an outside chain that pixel,
shifted back by the padding offset, is the head of the produced chain. -/
theorem claim_C4_amended (rows cols cmask : Nat) (pix : List Pt) (fuel : Nat)
    (s : Pt) (ch : List Pt)
    (hs : argminD2 pix = some s)
    (ht : traceComponent rows cols cmask pix false fuel = some ch) :
    ch.head? = some (s.1 - 1, s.2 - 1) := by
  simp only [traceComponent, hs] at ht
  cases hw : walkAux rows cols cmask s.1 s.2 fuel s.1 s.2 2 with
  | none =>
    simp only [hw] at ht
    exact absurd ht (by simp)
  | some raw =>
    simp only [hw] at ht
    simp at ht
    have hraw : raw.head? = some (s.1 - 1, s.2 - 1) := walkAux_head hw
    have hne : raw ≠ [] := by
      intro h0
      rw [h0] at hraw
      simp at hraw
    rw [← ht, decimate_head hne, hraw]

/-- Witness for `claim_C4_amended`: the anti-diagonal component, whose
start pixel in padded coordinates is (3, 3). -/
theorem claim_C4_amended_witness :
    ([((2 : Int), (2 : Int)), (1, 3), (0, 4), (1, 3), (2, 2)] : List Pt).head?
      = some ((3 : Int) - 1, (3 : Int) - 1) :=
  claim_C4_amended 7 7 (padMaskBits diagM 1 true)
    (compPixelsB 7 7 (padMaskBits diagM 1 true)) 300 ((3 : Int), (3 : Int))
    [((2 : Int), (2 : Int)), (1, 3), (0, 4), (1, 3), (2, 2)]
    (by decide) (by decide)

/-- The stride as the claim words it: `ceil(len/20)` with a minimum of
10. -/
def claimStride (n : Nat) : Nat := max 10 ((n + 19) / 20)

/-- An undecorated 44-point chain (longer than 40 points, so the
decimation branch of `make_control_points` applies to it). -/
def c44 : List Pt := (List.range 44).map fun k => ((k : Int), 0)

/-- Claim C5 fails as stated: on a 44-point chain the code decimates
with stride `min(10, ceil(len/20)) = 3`, not with the claimed
`max(10, ceil(len/20)) = 10` — the 10 is a cap on the stride, not a
minimum. -/
theorem claim_C5_counterexample :
    decimate c44 ((0 : Int), (0 : Int))
      ≠ everyNth c44 (claimStride c44.length) ++ [((0 : Int), (0 : Int))] := by
  decide

/-- Claim C5 amended: chains of at most 40 points are left undecimated;
longer chains are decimated with stride `min(10, ceil(len/20))` (a cap
of 10, not a minimum); the closing point is appended afterwards and is
never dropped. -/
theorem claim_C5_amended (chain : List Pt) (closing : Pt) :
    (chain.length ≤ 40 → decimate chain closing = chain ++ [closing]) ∧
    (chain.length > 40 →
      decimate chain closing
        = everyNth chain (codeStride chain.length) ++ [closing]) ∧
    (decimate chain closing).getLast? = some closing := by
  refine ⟨?_, ?_, ?_⟩
  · intro h
    unfold decimate
    rw [if_neg (by omega)]
  · intro h
    unfold decimate
    rw [if_pos (by omega)]
  · unfold decimate
    split <;> exact List.getLast?_concat _

/-- Witness for `claim_C5_amended`: a singleton chain is kept as is, the
44-point chain is decimated with stride 3, and both keep their closing
point last. -/
theorem claim_C5_amended_witness :
    (decimate [((0 : Int), (0 : Int))] ((5 : Int), (5 : Int))
      = [((0 : Int), (0 : Int))] ++ [((5 : Int), (5 : Int))]) ∧
    (decimate c44 ((0 : Int), (0 : Int))
      = everyNth c44 (codeStride c44.length) ++ [((0 : Int), (0 : Int))]) ∧
    (decimate c44 ((0 : Int), (0 : Int))).getLast? = some ((0 : Int), (0 : Int)) :=
  ⟨(claim_C5_amended [((0 : Int), (0 : Int))] ((5 : Int), (5 : Int))).1 (by decide),
   (claim_C5_amended c44 ((0 : Int), (0 : Int))).2.1 (by decide),
   (claim_C5_amended c44 ((0 : Int), (0 : Int))).2.2⟩

/-! Edit operations on the live artists (`ok_to_split`,
`on_split_second_click`, `delete_control_point`, `new_object`). -/

/-- A live matplotlib artist of the dialog: its control-point data (x, y
pairs, last point repeating the first) and the metadata dictionary of
lines 1230-1233 (`K_LABEL`, `K_EDITED`, `K_OUTSIDE`). -/
structure Artist where
  data : List (ℚ × ℚ)
  label : Nat
  edited : Bool
  outside : Bool
deriving DecidableEq

/-- `ok_to_split` (lines 973-993). Picks are (artist index, control-point
index) pairs; `firstPick` is the stored `split_pick_artist`/`index`,
`secondPick` the new hit. Artist identity (`pick_artist ==
self.split_pick_artist`) is index equality. -/
def okToSplit (arts : List Artist) (firstPick secondPick : Nat × Nat) : Bool :=
  match arts.get? firstPick.1, arts.get? secondPick.1 with
  | some sa, some pa =>
    if pa.label ≠ sa.label then false
    else if secondPick.1 = firstPick.1 then
      let mi := min secondPick.2 firstPick.2
      let ma := max secondPick.2 firstPick.2
      if ma - mi < 2 then false
      else if pa.data.length - ma ≤ 2 ∧ mi = 0 then false
      else true
    else if pa.outside = sa.outside then false
    else true
  | _, _ => false

/-- The split-legality condition as the claim words it: same object; on
the same chain indices separated by at least 2 and not both within the
last-two/first-two wrap-around positions (lower pick in the first two
positions and upper pick in the last two positions of the chain array);
on different chains exactly one outside. -/
def claimSplitLegal (arts : List Artist) (firstPick secondPick : Nat × Nat) :
    Bool :=
  match arts.get? firstPick.1, arts.get? secondPick.1 with
  | some sa, some pa =>
    decide (pa.label = sa.label) &&
    (if secondPick.1 = firstPick.1 then
      let mi := min secondPick.2 firstPick.2
      let ma := max secondPick.2 firstPick.2
      decide (2 ≤ ma - mi) &&
        !(decide (mi ≤ 1) && decide (pa.data.length ≤ ma + 2))
    else pa.outside != sa.outside)
  | _, _ => false

/-- The amended wrap-around condition: the rejection requires the lower
index to be exactly 0 (the first position), together with the upper
index in the last two positions of the chain array. -/
def amendedSplitLegal (arts : List Artist) (firstPick secondPick : Nat × Nat) :
    Bool :=
  match arts.get? firstPick.1, arts.get? secondPick.1 with
  | some sa, some pa =>
    if pa.label ≠ sa.label then false
    else if secondPick.1 = firstPick.1 then
      let mi := min secondPick.2 firstPick.2
      let ma := max secondPick.2 firstPick.2
      if ma - mi < 2 then false
      else if mi = 0 ∧ pa.data.length ≤ ma + 2 then false
      else true
    else if pa.outside = sa.outside then false
    else true
  | _, _ => false

/-- Is the pick a control-point hit `get_control_point` can return? That
search runs over `get_xydata()[:-1]` (line 585), so the vertex index is
at most `len(data) - 2`. -/
def validPick (arts : List Artist) (p : Nat × Nat) : Bool :=
  match arts.get? p.1 with
  | some a => decide (p.2 + 1 < a.data.length)
  | none => false

/-- The edit-session state that `on_split_second_click` can touch. -/
structure EditState where
  arts : List Artist
  firstPickA : Nat
  firstPickI : Nat
  toKeep : List Bool
deriving DecidableEq

/-- `on_split_second_click` (lines 995-1000): an illegal pair returns at
once, leaving the state unchanged; a legal pair executes the split. The
split execution (lines 1001-1088, splice plus retrace) is abstracted as
the continuation `performSplit`. -/
def splitSecondClick (performSplit : EditState → Nat × Nat → EditState)
    (st : EditState) (pick : Nat × Nat) : EditState :=
  if okToSplit st.arts (st.firstPickA, st.firstPickI) pick then
    performSplit st pick
  else st

/-- A five-vertex closed chain (six data points with the closing
duplicate): picking vertices 1 and 4 is accepted by `ok_to_split`
(separation 3, and the lower index is 1, not 0) but the claim's
last-two/first-two wrap-around wording rejects it (1 is within the first
two positions and 4 is within the last two). -/
def artC6 : Artist :=
  ⟨[(0, 0), (3, 0), (3, 3), (0, 3), (0, 1), (0, 0)], 1, false, true⟩

/-- Claim C6 fails as stated: on `artC6` the pick pair (vertex 1,
vertex 4) — both genuine control-point hits — is accepted by the code
but rejected by the claim's wrap-around condition, so "accepts if and
only if" does not hold. -/
theorem claim_C6_counterexample :
    okToSplit [artC6] (0, 1) (0, 4) = true ∧
    claimSplitLegal [artC6] (0, 1) (0, 4) = false ∧
    validPick [artC6] (0, 1) = true ∧
    validPick [artC6] (0, 4) = true :=
  ⟨by decide, by decide, by decide, by decide⟩

/-- Claim C6 amended: `ok_to_split` accepts exactly the pairs allowed by
the amended legality condition (wrap-around rejection only when the
lower index is exactly 0 and the upper index is in the last two array
positions), and a rejected pair leaves the edit state unchanged. -/
theorem claim_C6_amended (performSplit : EditState → Nat × Nat → EditState)
    (st : EditState) (pick : Nat × Nat) :
    (okToSplit st.arts (st.firstPickA, st.firstPickI) pick
      = amendedSplitLegal st.arts (st.firstPickA, st.firstPickI) pick) ∧
    (okToSplit st.arts (st.firstPickA, st.firstPickI) pick = false →
      splitSecondClick performSplit st pick = st) := by
  constructor
  · unfold okToSplit amendedSplitLegal
    cases hsa : st.arts.get? st.firstPickA with
    | none => cases hpa : st.arts.get? pick.1 <;> rfl
    | some sa =>
      cases hpa : st.arts.get? pick.1 with
      | none => rfl
      | some pa =>
        dsimp only
        by_cases hl : pa.label ≠ sa.label
        · rw [if_pos hl, if_pos hl]
        · rw [if_neg hl, if_neg hl]
          by_cases hsame : pick.1 = st.firstPickA
          · rw [if_pos hsame, if_pos hsame]
            by_cases hclose : max pick.2 st.firstPickI - min pick.2 st.firstPickI < 2
            · rw [if_pos hclose, if_pos hclose]
            · rw [if_neg hclose, if_neg hclose]
              have hiff :
                  (pa.data.length - max pick.2 st.firstPickI ≤ 2 ∧
                    min pick.2 st.firstPickI = 0)
                  ↔ (min pick.2 st.firstPickI = 0 ∧
                    pa.data.length ≤ max pick.2 st.firstPickI + 2) := by
                omega
              by_cases hwrap : pa.data.length - max pick.2 st.firstPickI ≤ 2 ∧
                  min pick.2 st.firstPickI = 0
              · rw [if_pos hwrap, if_pos (hiff.mp hwrap)]
              · rw [if_neg hwrap, if_neg (fun hc => hwrap (hiff.mpr hc))]
          · rw [if_neg hsame, if_neg hsame]
  · intro h
    simp [splitSecondClick, h]

/-- Witness for `claim_C6_amended`: an adjacent pick pair (vertices 0
and 1 of `artC6`) agrees with the amended legality (both reject it) and
its rejection leaves the state unchanged. -/
theorem claim_C6_amended_witness :
    okToSplit [artC6] (0, 0) (0, 1) = amendedSplitLegal [artC6] (0, 0) (0, 1) ∧
    splitSecondClick (fun s _ => s) ⟨[artC6], 0, 0, []⟩ (0, 1)
      = ⟨[artC6], 0, 0, []⟩ :=
  ⟨(claim_C6_amended (fun s _ => s) ⟨[artC6], 0, 0, []⟩ (0, 1)).1,
   (claim_C6_amended (fun s _ => s) ⟨[artC6], 0, 0, []⟩ (0, 1)).2 (by decide)⟩

/-- `delete_control_point` (lines 864-875), given the hit-test result of
`get_control_point` (`none` when no vertex is within the epsilon): with
a hit, a chain of fewer than 4 data points is removed wholesale;
otherwise the hit vertex is dropped and the chain marked edited. -/
def deleteControlPoint (arts : List Artist) (hit : Option (Nat × Nat)) :
    List Artist :=
  match hit with
  | none => arts
  | some (ai, idx) =>
    match arts.get? ai with
    | none => arts
    | some a =>
      if a.data.length < 4 then arts.eraseIdx ai
      else arts.set ai
        { a with data := a.data.take idx ++ a.data.drop (idx + 1),
                 edited := true }

/-- The deletion as the claim words it: the chain is removed whenever it
WOULD drop below 4 points after the deletion (i.e. when it currently has
fewer than 5 points). -/
def claimDeleteControlPoint (arts : List Artist) (hit : Option (Nat × Nat)) :
    List Artist :=
  match hit with
  | none => arts
  | some (ai, idx) =>
    match arts.get? ai with
    | none => arts
    | some a =>
      if a.data.length - 1 < 4 then arts.eraseIdx ai
      else arts.set ai
        { a with data := a.data.take idx ++ a.data.drop (idx + 1),
                 edited := true }

/-- A closed triangle: 4 data points (3 vertices plus the closing
duplicate). Deleting a vertex would leave 3 points, below the 4-point
minimum the claim speaks of. -/
def artsC7 : List Artist := [⟨[(0, 0), (2, 0), (2, 2), (0, 0)], 1, false, true⟩]

/-- Claim C7 fails as stated: deleting vertex 1 of a 4-point chain would
drop it below 4 points, so the claim removes the whole chain, but the
code (which tests the length before deletion, `len(l) < 4`) keeps the
chain and deletes the vertex, leaving a degenerate 3-point chain. -/
theorem claim_C7_counterexample :
    deleteControlPoint artsC7 (some (0, 1))
      ≠ claimDeleteControlPoint artsC7 (some (0, 1)) := by
  decide

/-- Claim C7 amended: on a hit, a chain that already has fewer than 4
data points is removed wholesale (so a deletion is never applied to it),
while a chain of 4 or more points — including exactly 4 — has the vertex
deleted in place; either way the operation is total and removes at most
one artist. -/
theorem claim_C7_amended (arts : List Artist) (ai idx : Nat) (a : Artist)
    (ha : arts.get? ai = some a) (hidx : idx + 1 < a.data.length) :
    (a.data.length < 4 →
      deleteControlPoint arts (some (ai, idx)) = arts.eraseIdx ai) ∧
    (4 ≤ a.data.length →
      deleteControlPoint arts (some (ai, idx))
        = arts.set ai
            { a with data := a.data.take idx ++ a.data.drop (idx + 1),
                     edited := true }) ∧
    ((deleteControlPoint arts (some (ai, idx))).length = arts.length ∨
      (deleteControlPoint arts (some (ai, idx))).length + 1 = arts.length) := by
  have hai : ai < arts.length := by
    rcases List.get?_eq_some.mp ha with ⟨h, _⟩
    exact h
  refine ⟨?_, ?_, ?_⟩
  · intro h
    simp only [deleteControlPoint, ha]
    rw [if_pos h]
  · intro h
    simp only [deleteControlPoint, ha]
    rw [if_neg (by omega)]
  · simp only [deleteControlPoint, ha]
    split
    · right
      rw [List.length_eraseIdx_of_lt hai]
      omega
    · left
      exact List.length_set arts ai _

/-- Witness for `claim_C7_amended`: deleting vertex 1 of the 4-point
triangle chain deletes the vertex in place, and deleting vertex 0 of a
3-point chain removes the whole chain. -/
theorem claim_C7_amended_witness :
    (deleteControlPoint artsC7 (some (0, 1))
      = artsC7.set 0
          { data := [((0 : ℚ), (0 : ℚ)), (2, 2), (0, 0)], label := 1,
            edited := true, outside := true }) ∧
    (deleteControlPoint [⟨[(0, 0), (1, 0), (0, 0)], 2, false, true⟩]
        (some (0, 0))
      = ([⟨[(0, 0), (1, 0), (0, 0)], 2, false, true⟩] : List Artist).eraseIdx 0) ∧
    ((deleteControlPoint artsC7 (some (0, 1))).length = artsC7.length ∨
      (deleteControlPoint artsC7 (some (0, 1))).length + 1 = artsC7.length) :=
  ⟨by
    have := (claim_C7_amended artsC7 0 1 ⟨[(0, 0), (2, 0), (2, 2), (0, 0)], 1, false, true⟩
      (by decide) (by decide)).2.1 (by decide)
    simpa using this,
   (claim_C7_amended [⟨[(0, 0), (1, 0), (0, 0)], 2, false, true⟩] 0 0
      ⟨[(0, 0), (1, 0), (0, 0)], 2, false, true⟩ (by decide) (by decide)).1
      (by decide),
   (claim_C7_amended artsC7 0 1 ⟨[(0, 0), (2, 0), (2, 2), (0, 0)], 1, false, true⟩
      (by decide) (by decide)).2.2⟩

/-- `new_object` (lines 877-898), vertex geometry: 13 angles
`2*pi*k/12`, a radius-20 circle around the cursor, then the clamping of
lines 885-887 — `x[x < 0] = 0`, `x[x >= shape[1]] = shape[1]-1`,
`y[y >= shape[0]] = shape[0]-1`. The source has no `y[y < 0]` clamp;
this definition reproduces that faithfully. Floating point is modelled
over the reals. -/
noncomputable def newObjVerts (shape0 shape1 : Nat) (cx cy : ℝ) :
    List (ℝ × ℝ) :=
  (List.range 13).map fun (k : ℕ) =>
    let x0 := 20 * Real.cos (2 * Real.pi * (k : ℝ) / 12) + cx
    let y0 := 20 * Real.sin (2 * Real.pi * (k : ℝ) / 12) + cy
    let x1 := if x0 < 0 then 0 else x0
    let x2 := if (shape1 : ℝ) ≤ x1 then (shape1 : ℝ) - 1 else x1
    let y1 := if (shape0 : ℝ) ≤ y0 then (shape0 : ℝ) - 1 else y0
    (x2, y1)

/-- `new_object` id allocation (line 878): the next unused object id is
the current length of the keep array. -/
def newObjectNumber (toKeep : List Bool) : Nat := toKeep.length

/-- `new_object` keep-array extension (lines 879-881): one entry is
appended and it is `True`. -/
def newObjectKeep (toKeep : List Bool) : List Bool := toKeep ++ [true]

/-- Claim C8 fails on the code (code bug): at cursor (5, 5) in a
100 x 100 image, vertex 9 of the new 12-gon is (5, -15) — its angle is
`3*pi/2`, so `y = 5 + 20*sin(3*pi/2) = -15`, and `new_object` never
clamps negative y (it clamps `x < 0`, `x >= shape[1]` and
`y >= shape[0]` only), so a vertex lies outside the label matrix. The id
allocation and keep-extension parts behave as claimed. -/
theorem claim_C8_y_not_clamped :
    (newObjVerts 100 100 5 5).get? 9 = some ((5 : ℝ), (-15 : ℝ)) ∧
    ((-15 : ℝ) < 0) ∧
    newObjectNumber (List.replicate 4 true) = 4 ∧
    newObjectKeep (List.replicate 4 true) = List.replicate 4 true ++ [true] := by
  refine ⟨?_, by norm_num, rfl, rfl⟩
  have hθ : 2 * Real.pi * ((9 : ℕ) : ℝ) / 12 = Real.pi + Real.pi / 2 := by
    push_cast
    ring
  have hsin : Real.sin (2 * Real.pi * ((9 : ℕ) : ℝ) / 12) = -1 := by
    rw [hθ, Real.sin_add]
    simp
  have hcos : Real.cos (2 * Real.pi * ((9 : ℕ) : ℝ) / 12) = 0 := by
    rw [hθ, Real.cos_add]
    simp
  have h9 : (List.range 13).get? 9 = some 9 := rfl
  rw [newObjVerts, List.get?_map, h9, Option.map_some']
  simp only [hsin, hcos]
  norm_num

/-! The edit session and the cancellation path of `filter_objects`
(lines 1270-1274). -/

/-- The dialog's mutable state: `self.orig_labels` (never written after
`__init__`), `self.labels` (initialised to `orig_labels.copy()`, line
314) and the keep array `self.to_keep = np.ones(max+1, bool)` (line
322). -/
structure Session where
  origLabels : Mat
  labels : Mat
  toKeep : List Bool
deriving DecidableEq

/-- `FilterObjectsDialog.__init__` state initialisation. -/
def initSession (orig : Mat) : Session :=
  ⟨orig, orig, List.replicate (maxVal orig + 1) true⟩

/-- The state-mutating user operations of the dialog: clicking an object
(`on_click`, toggling keep), the Keep all / Remove all / Reverse
selection buttons (lines 1096-1106), Reset (lines 1108-1112), and
committing an edited object's chains (`close_label`). -/
inductive SessionOp
  | toggleKeep (n : Nat)
  | keepAll
  | removeAll
  | reverseAll
  | reset
  | closeLabel (lab : Nat) (chains : List (List Pt))

/-- `to_keep[1:] = b` (the background entry 0 is never touched). -/
def setFromOne (b : Bool) (l : List Bool) : List Bool :=
  match l with
  | [] => []
  | h :: t => h :: t.map (fun _ => b)

/-- `to_keep[1:] = ~to_keep[1:]`. -/
def reverseFromOne (l : List Bool) : List Bool :=
  match l with
  | [] => []
  | h :: t => h :: t.map (fun x => !x)

/-- The label-matrix commit of `close_label` (lines 1251-1259):
rasterize the chains, clear the label's previous pixels, set the mask
pixels to the label. -/
def commitLabel (labels : Mat) (lab : Nat) (chains : List (List Pt)) : Mat :=
  let mask := rasterize labels.length (matW labels) chains
  (labels.zip mask).map fun rm =>
    (rm.1.zip rm.2).map fun cm =>
      if cm.2 then lab else if cm.1 = lab then 0 else cm.1

/-- One dialog operation. Every arm writes `labels` or `toKeep` only;
`origLabels` is read (by reset) but never written, as in the source. -/
def applyOp (s : Session) : SessionOp → Session
  | .toggleKeep n => { s with toKeep := s.toKeep.set n (!(s.toKeep.getD n true)) }
  | .keepAll => { s with toKeep := setFromOne true s.toKeep }
  | .removeAll => { s with toKeep := setFromOne false s.toKeep }
  | .reverseAll => { s with toKeep := reverseFromOne s.toKeep }
  | .reset => { s with labels := s.origLabels }
  | .closeLabel lab chains => { s with labels := commitLabel s.labels lab chains }

/-- Run an edit session from the original labels. -/
def runSession (orig : Mat) (ops : List SessionOp) : Session :=
  ops.foldl applyOp (initSession orig)

/-- `EditObjectsManually.filter_objects` (lines 1270-1274): show the
dialog; any result other than OK raises
`RuntimeError("User cancelled EditObjectsManually")` — modelled as
`Except.error` — otherwise the dialog's labels are returned. -/
def filterObjects (orig : Mat) (ops : List SessionOp) (cancelled : Bool) :
    Except Unit Mat :=
  if cancelled then Except.error () else Except.ok (runSession orig ops).labels

/-- Claim C9: a cancelled session propagates an abort signal that is
distinguishable from every success result (an exception, never an
`ok`-labelled matrix), and the session's edits only ever touched the
working copy: the caller's original label matrix is untouched whatever
operations ran. -/
theorem claim_C9_cancel_aborts (orig : Mat) (ops : List SessionOp) :
    filterObjects orig ops true = Except.error () ∧
    (∀ m : Mat, filterObjects orig ops true ≠ Except.ok m) ∧
    (runSession orig ops).origLabels = orig := by
  refine ⟨rfl, fun m h => by simp [filterObjects] at h, ?_⟩
  have key : ∀ (l : List SessionOp) (s : Session),
      (l.foldl applyOp s).origLabels = s.origLabels := by
    intro l
    induction l with
    | nil => intro s; rfl
    | cons op t ih =>
      intro s
      rw [List.foldl_cons, ih]
      cases op <;> rfl
  exact key ops (initSession orig)

/-! The Neighbor Relationship Engine (spec section 4.4). Its source
module `measureobjectneighbors.py` is not under src/ — only its tests
are — so the engine is modelled from the spec. -/

/-- The three distance semantics of the engine. -/
inductive DistanceMode
  | adjacent
  | expand
  | within
deriving DecidableEq

/-- The per-object measurement vectors (one entry per object, spec
section 3) and the relationship edge list. Distances are carried
squared and the angle feature carries the squared cosine, keeping the
model exact over the rationals; `none` marks the not-a-number angle of
an object with fewer than two neighbors. -/
structure NeighborOutput where
  numberOfNeighbors : List Nat
  percentTouching : List ℚ
  firstClosestId : List Nat
  firstClosestDist2 : List ℚ
  secondClosestId : List Nat
  secondClosestDist2 : List ℚ
  angleCosSq : List (Option ℚ)
  relationships : List (Nat × Nat)

/-- The 8-neighborhood of a grid point. -/
def neighbors8 (p : Pt) : List Pt :=
  [(p.1 - 1, p.2 - 1), (p.1 - 1, p.2), (p.1 - 1, p.2 + 1), (p.1, p.2 - 1),
   (p.1, p.2 + 1), (p.1 + 1, p.2 - 1), (p.1 + 1, p.2), (p.1 + 1, p.2 + 1)]

/-- Modelled from the spec: the candidate region per object — its
footprint dilated `d` times by the Chebyshev structuring element
(section 4.4: `adjacent` uses the footprint with adjacency testing,
`within(D)` dilates D times, `expand` grows until contact, capped by the
matrix extent). -/
def dilatedRegion (rows cols : Nat) (pts : List Pt) (d : Nat) : List Pt :=
  ((List.range rows).map fun r =>
    (List.range cols).filterMap fun c =>
      if pts.any (fun q =>
          max (q.1 - (r : Int)).natAbs (q.2 - (c : Int)).natAbs ≤ d) then
        some ((r : Int), (c : Int))
      else none).flatten

/-- Modelled from the spec: the dilation radius per distance mode;
`adjacent` grows one pixel so touching footprints meet, `expand` is
capped by the matrix extent. -/
def dilationRadius (mode : DistanceMode) (rows cols d : Nat) : Nat :=
  match mode with
  | .adjacent => 1
  | .within => d
  | .expand => max rows cols

/-- Do two pixel sets intersect? -/
def ptsIntersect (a b : List Pt) : Bool := a.any (fun p => b.contains p)

/-- Centroid of a pixel set over the rationals, (0, 0) when empty. -/
def centroidQ (pts : List Pt) : ℚ × ℚ :=
  if pts.length = 0 then (0, 0)
  else (((pts.foldl (fun acc p => acc + p.1) 0 : Int) : ℚ) / pts.length,
        ((pts.foldl (fun acc p => acc + p.2) 0 : Int) : ℚ) / pts.length)

/-- Squared Euclidean distance of rational points. -/
def dist2Q (a b : ℚ × ℚ) : ℚ := (a.1 - b.1) ^ 2 + (a.2 - b.2) ^ 2

/-- The closest id by squared centroid distance, ties to the lower id
(spec section 4.4). -/
def pickClosest (c : ℚ × ℚ) (cent : Nat → ℚ × ℚ) : List Nat → Option Nat
  | [] => none
  | i :: t => some (t.foldl
      (fun best j =>
        if dist2Q c (cent j) < dist2Q c (cent best) ∨
            (dist2Q c (cent j) = dist2Q c (cent best) ∧ j < best) then j
        else best) i)

/-- Modelled from the spec: perimeter pixels of a footprint — the pixels
with an 8-neighbor outside the footprint. -/
def perimeterPts (pts : List Pt) : List Pt :=
  pts.filter (fun p => (neighbors8 p).any (fun q => !pts.contains q))

/-- Modelled from the spec: the Neighbor Relationship Engine (module
`measureobjectneighbors`, absent from src/) in self-neighbor mode.
Objects are the distinct non-zero labels; two objects are neighbors when
their dilated candidate regions intersect; per-object vectors hold the
neighbor count, percent touching (0 for a zero-perimeter object, never a
division error), first/second closest neighbor id and squared distance
(0-valued when missing), the angle feature (none when fewer than two
neighbors), and the directed relationship edge list. -/
def measureObjectNeighbors (m : Mat) (mode : DistanceMode) (d : Nat) :
    NeighborOutput :=
  let objs := uniqueLabels m
  let rows := m.length
  let cols := matW m
  let rad := dilationRadius mode rows cols d
  let foot := fun v => objPixels m v
  let region := fun v => dilatedRegion rows cols (foot v) rad
  let nbrs := fun v => objs.filter
    (fun w => w ≠ v && ptsIntersect (region v) (region w))
  let cent := fun v => centroidQ (foot v)
  let firstOf := fun v => pickClosest (cent v) cent (nbrs v)
  let secondOf := fun v =>
    match firstOf v with
    | none => none
    | some f => pickClosest (cent v) cent ((nbrs v).erase f)
  { numberOfNeighbors := objs.map (fun v => (nbrs v).length)
    percentTouching := objs.map (fun v =>
      let per := perimeterPts (foot v)
      if per.length = 0 then 0
      else 100 * ((per.countP (fun p =>
        (nbrs v).any (fun w => (region w).contains p)) : ℚ) / per.length))
    firstClosestId := objs.map (fun v => (firstOf v).getD 0)
    firstClosestDist2 := objs.map (fun v =>
      match firstOf v with
      | none => 0
      | some f => dist2Q (cent v) (cent f))
    secondClosestId := objs.map (fun v => (secondOf v).getD 0)
    secondClosestDist2 := objs.map (fun v =>
      match secondOf v with
      | none => 0
      | some s => dist2Q (cent v) (cent s))
    angleCosSq := objs.map (fun v =>
      match firstOf v, secondOf v with
      | some f, some s =>
        let u := (cent f).1 - (cent v).1
        let u2 := (cent f).2 - (cent v).2
        let w := (cent s).1 - (cent v).1
        let w2 := (cent s).2 - (cent v).2
        let n1 := u ^ 2 + u2 ^ 2
        let n2 := w ^ 2 + w2 ^ 2
        if n1 = 0 ∨ n2 = 0 then some 0
        else some ((u * w + u2 * w2) ^ 2 / (n1 * n2))
      | _, _ => none)
    relationships := (objs.map (fun v => (nbrs v).map (fun w => (v, w)))).flatten }

/-- The all-zero label matrix. -/
def zeroMat (rows cols : Nat) : Mat :=
  List.replicate rows (List.replicate cols 0)

theorem foldr_max_eq_zero {l : List Nat} (h : ∀ x ∈ l, x = 0) :
    l.foldr max 0 = 0 := by
  induction l with
  | nil => rfl
  | cons a t ih =>
    have ha : a = 0 := h a (List.mem_cons_self a t)
    have ht : ∀ x ∈ t, x = 0 := fun x hx => h x (List.mem_cons_of_mem a hx)
    simp [ha, ih ht]

theorem uniqueLabels_zeroMat (rows cols : Nat) :
    uniqueLabels (zeroMat rows cols) = [] := by
  have hall : ∀ x ∈ (zeroMat rows cols).flatten, x = 0 := by
    intro x hx
    rcases List.mem_flatten.mp hx with ⟨row, hrow, hxr⟩
    have hrow0 := List.eq_of_mem_replicate hrow
    subst hrow0
    exact List.eq_of_mem_replicate hxr
  have hmax : maxVal (zeroMat rows cols) = 0 := foldr_max_eq_zero hall
  rw [uniqueLabels, hmax]
  simp

/-- Claim C3: on an all-zero label matrix, under every distance mode and
distance, the engine yields a zero-length measurement vector for every
feature and an empty relationship list — and, being a total function of
its inputs, it raises no exception doing so. -/
theorem claim_C3_empty_matrix (rows cols d : Nat) (mode : DistanceMode) :
    (measureObjectNeighbors (zeroMat rows cols) mode d).numberOfNeighbors = [] ∧
    (measureObjectNeighbors (zeroMat rows cols) mode d).percentTouching = [] ∧
    (measureObjectNeighbors (zeroMat rows cols) mode d).firstClosestId = [] ∧
    (measureObjectNeighbors (zeroMat rows cols) mode d).firstClosestDist2 = [] ∧
    (measureObjectNeighbors (zeroMat rows cols) mode d).secondClosestId = [] ∧
    (measureObjectNeighbors (zeroMat rows cols) mode d).secondClosestDist2 = [] ∧
    (measureObjectNeighbors (zeroMat rows cols) mode d).angleCosSq = [] ∧
    (measureObjectNeighbors (zeroMat rows cols) mode d).relationships = [] := by
  have hu := uniqueLabels_zeroMat rows cols
  refine ⟨?_, ?_, ?_, ?_, ?_, ?_, ?_, ?_⟩ <;>
    simp [measureObjectNeighbors, hu]
